import Mathlib

/-!
Verification development for the emotive speech-synthesis pipeline
(`voice/tts.py`, `voice/giggle_cache.py`).

Modelling conventions:
* Waveforms are `List ℚ`; sample values that the Python code obtains from
  `numpy` transcendentals (`np.sin`, `np.exp`, `np.pi`) or random draws
  (`np.random.normal`, `random.random`, `random.uniform`) are supplied by
  injected function/number parameters, so every definition stays executable
  and the structure (lengths, positions, concatenations, guards) is exactly
  that of the source.
* Python `int(x)` on the non-negative quantities used here is `Nat.floor`.
  The float constants (`0.8`, `0.15`, ...) are embedded as the exact decimal
  rationals; every concrete evaluation below stays far from the integer
  boundaries where double rounding of these constants could matter.
* Python exceptions are modelled with `Except String`; the places where a
  numpy broadcast error is raised and swallowed by the surrounding
  `try/except` (returning the untouched input) are embedded as explicit
  guards, annotated where they occur.
-/

/-- Python `int(q)` for the non-negative rationals appearing in the code
(written with `Rat` projections so that concrete instances evaluate by
kernel reduction; equal to `Nat.floor`, see `pyInt_eq_natFloor`). -/
def pyInt (q : ℚ) : ℕ := q.num.toNat / q.den

theorem pyInt_eq_natFloor (q : ℚ) : pyInt q = ⌊q⌋₊ := by
  unfold pyInt
  rw [← Int.floor_toNat, Rat.floor_def]
  rcases le_or_lt 0 q.num with h | h
  · obtain ⟨a, ha⟩ := Int.eq_ofNat_of_zero_le h
    rw [ha, Int.toNat_natCast]
    rw [show ((a : ℤ) / ((q.den : ℕ) : ℤ)) = Int.ediv (a : ℤ) ((q.den : ℕ) : ℤ) from rfl,
      ← Int.natCast_ediv, Int.toNat_natCast]
  · have hden : (0 : ℤ) < (q.den : ℤ) := by exact_mod_cast q.den_pos
    have h1 : q.num / (q.den : ℤ) < 0 := Int.ediv_neg' h hden
    have h2 : q.num.toNat = 0 := Int.toNat_of_nonpos (le_of_lt h)
    rw [h2]
    simp [Int.toNat_of_nonpos (le_of_lt h1)]

/-- `np.linspace a b m` evaluated at index `i` (`m` points from `a` to `b`
inclusive; for `m = 1` numpy yields `[a]`, matched here by `ℚ`'s `x / 0 = 0`). -/
def linspaceAt (a b : ℚ) (m i : ℕ) : ℚ := a + (b - a) * i / (m - 1)

/-- Whitespace test matching Python's `\s` on the ASCII range. -/
def isWsChar (c : Char) : Bool :=
  c == ' ' || c == '\t' || c == '\n' || c == '\r' || c == '\x0b' || c == '\x0c'

/-- Sentence-ending mark, the class `[.!?]` of `add_breathing_pauses`. -/
def isSentMark (c : Char) : Bool := c == '.' || c == '!' || c == '?'

/-- `mapConcat f l` is `List.flatMap` written out, used to state that the
markup transform acts independently on each input character. -/
def mapConcat (f : Char → List Char) : List Char → List Char
  | [] => []
  | c :: t => f c ++ mapConcat f t

/-- `re.sub` with a single-literal-character pattern, as used for the four
punctuation substitutions in `add_breathing_pauses`. -/
def subChar (tgt : Char) (repl : List Char) : List Char → List Char
  | [] => []
  | c :: t => (if c = tgt then repl else [c]) ++ subChar tgt repl t

/-- The text inserted after `.` by `add_breathing_pauses`. -/
def brk300 : List Char := "<break time=\"300ms\"/>".toList

/-- The text inserted after `,` by `add_breathing_pauses`. -/
def brk200 : List Char := "<break time=\"200ms\"/>".toList

/-- The text inserted after `!` and `?` by `add_breathing_pauses`. -/
def brk400 : List Char := "<break time=\"400ms\"/>".toList

/-- Replacement for the sentence-boundary whitespace:
`' <break time="150ms"/> '` (note the surrounding spaces). -/
def brk150Repl : List Char := " <break time=\"150ms\"/> ".toList

/-- `re.sub(r'(?<=[.!?])\s+', brk150Repl, ·)`: a maximal whitespace run whose
preceding character is a sentence mark is replaced wholesale (the lookbehind
and the match both read the original string, so replacements are never
rescanned).  `prevMark` records whether the previous original character was a
sentence mark (`false` at the start); `inRun` is true while consuming the
remainder of a replaced whitespace run. -/
def sentWsSub : Bool → Bool → List Char → List Char
  | _, _, [] => []
  | prevMark, inRun, c :: t =>
    if inRun then
      if isWsChar c then sentWsSub false true t
      else c :: sentWsSub (isSentMark c) false t
    else if prevMark && isWsChar c then brk150Repl ++ sentWsSub false true t
    else c :: sentWsSub (isSentMark c) false t

/-- `add_breathing_pauses` from `voice/tts.py`: the four punctuation
substitutions followed by the sentence-boundary whitespace substitution. -/
def add_breathing_pauses (t : List Char) : List Char :=
  sentWsSub false false
    (subChar '?' ('?' :: ' ' :: brk400)
      (subChar '!' ('!' :: ' ' :: brk400)
        (subChar ',' (',' :: ' ' :: brk200)
          (subChar '.' ('.' :: ' ' :: brk300) t))))

/-- The per-character action that `add_breathing_pauses` turns out to perform
(proved below): each punctuation mark keeps itself and gains pause
directives immediately after it; every other character is untouched. -/
def breathCharMap (c : Char) : List Char :=
  if c = '.' then '.' :: brk150Repl ++ brk300
  else if c = ',' then ',' :: ' ' :: brk200
  else if c = '!' then '!' :: brk150Repl ++ brk400
  else if c = '?' then '?' :: brk150Repl ++ brk400
  else [c]

theorem mapConcat_append (f : Char → List Char) (a b : List Char) :
    mapConcat f (a ++ b) = mapConcat f a ++ mapConcat f b := by
  induction a with
  | nil => rfl
  | cons c t ih => simp [mapConcat, ih]

/-- The four punctuation substitutions compose into one per-character map. -/
def punct4Map (c : Char) : List Char :=
  if c = '.' then '.' :: ' ' :: brk300
  else if c = ',' then ',' :: ' ' :: brk200
  else if c = '!' then '!' :: ' ' :: brk400
  else if c = '?' then '?' :: ' ' :: brk400
  else [c]

theorem subChar_eq_mapConcat (tgt : Char) (repl : List Char) (t : List Char) :
    subChar tgt repl t = mapConcat (fun c => if c = tgt then repl else [c]) t := by
  induction t with
  | nil => rfl
  | cons c t ih => simp [subChar, mapConcat, ih]

theorem mapConcat_mapConcat (f g : Char → List Char) (t : List Char) :
    mapConcat g (mapConcat f t) = mapConcat (fun c => mapConcat g (f c)) t := by
  induction t with
  | nil => rfl
  | cons c t ih => simp [mapConcat, mapConcat_append, ih]

theorem punct4_eq (t : List Char) :
    subChar '?' ('?' :: ' ' :: brk400)
      (subChar '!' ('!' :: ' ' :: brk400)
        (subChar ',' (',' :: ' ' :: brk200)
          (subChar '.' ('.' :: ' ' :: brk300) t)))
      = mapConcat punct4Map t := by
  simp only [subChar_eq_mapConcat, mapConcat_mapConcat]
  induction t with
  | nil => rfl
  | cons c t ih =>
    simp only [mapConcat] at ih ⊢
    rw [ih]
    congr 1
    by_cases h1 : c = '.'
    · subst h1; rfl
    · by_cases h2 : c = ','
      · subst h2; rfl
      · by_cases h3 : c = '!'
        · subst h3; rfl
        · by_cases h4 : c = '?'
          · subst h4; rfl
          · simp [mapConcat, punct4Map, h1, h2, h3, h4]

theorem sentWsSub_brk300 (b : Bool) (X : List Char) :
    sentWsSub false b (brk300 ++ X) = brk300 ++ sentWsSub false false X := by
  cases b <;> rfl

theorem sentWsSub_brk200 (b : Bool) (X : List Char) :
    sentWsSub false b (brk200 ++ X) = brk200 ++ sentWsSub false false X := by
  cases b <;> rfl

theorem sentWsSub_brk400 (b : Bool) (X : List Char) :
    sentWsSub false b (brk400 ++ X) = brk400 ++ sentWsSub false false X := by
  cases b <;> rfl

theorem sentWs_step_dot (X : List Char) :
    sentWsSub false false (('.' :: ' ' :: brk300) ++ X)
      = '.' :: brk150Repl ++ brk300 ++ sentWsSub false false X := by
  rw [show (('.' :: ' ' :: brk300) ++ X : List Char) = '.' :: ' ' :: (brk300 ++ X) by simp,
      show sentWsSub false false ('.' :: ' ' :: (brk300 ++ X))
        = '.' :: (brk150Repl ++ sentWsSub false true (brk300 ++ X)) from rfl,
      sentWsSub_brk300]
  simp

theorem sentWs_step_bang (X : List Char) :
    sentWsSub false false (('!' :: ' ' :: brk400) ++ X)
      = '!' :: brk150Repl ++ brk400 ++ sentWsSub false false X := by
  rw [show (('!' :: ' ' :: brk400) ++ X : List Char) = '!' :: ' ' :: (brk400 ++ X) by simp,
      show sentWsSub false false ('!' :: ' ' :: (brk400 ++ X))
        = '!' :: (brk150Repl ++ sentWsSub false true (brk400 ++ X)) from rfl,
      sentWsSub_brk400]
  simp

theorem sentWs_step_question (X : List Char) :
    sentWsSub false false (('?' :: ' ' :: brk400) ++ X)
      = '?' :: brk150Repl ++ brk400 ++ sentWsSub false false X := by
  rw [show (('?' :: ' ' :: brk400) ++ X : List Char) = '?' :: ' ' :: (brk400 ++ X) by simp,
      show sentWsSub false false ('?' :: ' ' :: (brk400 ++ X))
        = '?' :: (brk150Repl ++ sentWsSub false true (brk400 ++ X)) from rfl,
      sentWsSub_brk400]
  simp

theorem sentWs_step_comma (X : List Char) :
    sentWsSub false false ((',' :: ' ' :: brk200) ++ X)
      = ',' :: ' ' :: brk200 ++ sentWsSub false false X := by
  rw [show ((',' :: ' ' :: brk200) ++ X : List Char) = ',' :: ' ' :: (brk200 ++ X) by simp,
      show sentWsSub false false (',' :: ' ' :: (brk200 ++ X))
        = ',' :: ' ' :: sentWsSub false false (brk200 ++ X) from rfl,
      sentWsSub_brk200]
  simp

theorem sentWs_step_other (c : Char) (X : List Char) :
    sentWsSub false false (c :: X) = c :: sentWsSub (isSentMark c) false X := rfl

theorem sentWs_punct4 (t : List Char) :
    sentWsSub false false (mapConcat punct4Map t) = mapConcat breathCharMap t := by
  induction t with
  | nil => rfl
  | cons c t ih =>
    simp only [mapConcat]
    by_cases h1 : c = '.'
    · subst h1
      rw [show punct4Map '.' = '.' :: ' ' :: brk300 from rfl, sentWs_step_dot, ih,
          show breathCharMap '.' = '.' :: brk150Repl ++ brk300 from rfl]
    · by_cases h2 : c = ','
      · subst h2
        rw [show punct4Map ',' = ',' :: ' ' :: brk200 from rfl, sentWs_step_comma, ih,
            show breathCharMap ',' = ',' :: ' ' :: brk200 from rfl]
      · by_cases h3 : c = '!'
        · subst h3
          rw [show punct4Map '!' = '!' :: ' ' :: brk400 from rfl, sentWs_step_bang, ih,
              show breathCharMap '!' = '!' :: brk150Repl ++ brk400 from rfl]
        · by_cases h4 : c = '?'
          · subst h4
            rw [show punct4Map '?' = '?' :: ' ' :: brk400 from rfl, sentWs_step_question, ih,
                show breathCharMap '?' = '?' :: brk150Repl ++ brk400 from rfl]
          · have hp : punct4Map c = [c] := by simp [punct4Map, h1, h2, h3, h4]
            have hb : breathCharMap c = [c] := by simp [breathCharMap, h1, h2, h3, h4]
            have hm : isSentMark c = false := by
              simp [isSentMark, h1, h3, h4]
            rw [hp, hb, List.singleton_append, sentWs_step_other, hm, ih,
                List.singleton_append]

theorem singleton_sublist_breathCharMap (c : Char) : [c].Sublist (breathCharMap c) := by
  by_cases h1 : c = '.'
  · subst h1; exact List.Sublist.cons₂ _ (List.nil_sublist _)
  · by_cases h2 : c = ','
    · subst h2; exact List.Sublist.cons₂ _ (List.nil_sublist _)
    · by_cases h3 : c = '!'
      · subst h3; exact List.Sublist.cons₂ _ (List.nil_sublist _)
      · by_cases h4 : c = '?'
        · subst h4; exact List.Sublist.cons₂ _ (List.nil_sublist _)
        · simp [breathCharMap, h1, h2, h3, h4]

theorem sublist_mapConcat_breathCharMap (t : List Char) :
    t.Sublist (mapConcat breathCharMap t) := by
  induction t with
  | nil => exact List.nil_sublist _
  | cons c t ih =>
    have := List.Sublist.append (singleton_sublist_breathCharMap c) ih
    simpa using this

/-- C3: `add_breathing_pauses` inserts a pause directive after every
`.`, `,`, `!`, `?` (and, after every sentence-ending mark, the smaller 150 ms
directive in front of the longer one — in particular wherever whitespace
follows such a mark in the input), acting on each input character
independently (`breathCharMap`, which keeps the character itself and only
appends directives); consequently the input is a subsequence of the output
and no original character is removed or reordered. -/
theorem claim_C3_breathing_markup (t : List Char) :
    add_breathing_pauses t = mapConcat breathCharMap t
      ∧ t.Sublist (add_breathing_pauses t) := by
  have he : add_breathing_pauses t = mapConcat breathCharMap t := by
    rw [add_breathing_pauses, punct4_eq, sentWs_punct4]
  exact ⟨he, he ▸ sublist_mapConcat_breathCharMap t⟩

/-!
## Breath insertion (`add_breathing_sounds`, `voice/tts.py` lines 29-81)

`np.random.normal(0, 0.008, breath_samples)` is modelled by the injected
draw sequence `noise : ℕ → ℚ`.  Three low-sample-rate corner cases of the
Python code are embedded explicitly, each ending in the surrounding
`except` returning the input unchanged:
* `samplerate ≤ 2` makes `window_size // 2 = 0`, so `range` raises
  `ValueError`; the model's candidate list is empty and no breath is added,
  which yields the same output;
* `3 ≤ samplerate ≤ 6` makes `fade_samples = 0` with a non-empty breath, so
  `envelope[-0:] = np.linspace(1, 0, 0)` raises a broadcast `ValueError`;
  this is the explicit first guard below.
-/

/-- `window_size = int(0.8 * samplerate)`. -/
def breathWs (sr : ℕ) : ℕ := pyInt ((0.8 : ℚ) * sr)

/-- `fade_samples = int(0.15 * samplerate)`. -/
def breathFade (sr : ℕ) : ℕ := pyInt ((0.15 : ℚ) * sr)

/-- `breath_samples = int(0.4 * samplerate)` (`breath_duration = 0.4`). -/
def breathLen (sr : ℕ) : ℕ := pyInt ((0.4 : ℚ) * sr)

/-- `min_distance = int(2 * samplerate)`. -/
def breathMinDist (sr : ℕ) : ℕ := 2 * sr

/-- Envelope that rises (`linspace 0 1 rise`) on the first `rise` samples and
falls (`linspace 1 0 fall`) on the last `fall` samples of an `n`-sample
buffer; where the two slice assignments overlap the later (falling) one
wins, as in the sequential numpy code. -/
def env2At (n rise fall : ℕ) (i : ℕ) : ℚ :=
  if n - fall ≤ i then linspaceAt 1 0 fall (i - (n - fall))
  else if i < rise then linspaceAt 0 1 rise i
  else 1

/-- `breath_sound = np.random.normal(0, 0.008, breath_samples) * envelope`. -/
def breath_sound (noise : ℕ → ℚ) (sr : ℕ) : List ℚ :=
  (List.range (breathLen sr)).map
    (fun i => noise i * env2At (breathLen sr) (breathFade sr) (breathFade sr) i)

/-- The added buffer `breath_sound * 0.25` used by both insertion loops. -/
def breathB (noise : ℕ → ℚ) (sr : ℕ) : List ℚ :=
  (breath_sound noise sr).map (fun x => x * 0.25)

/-- numpy slice add `buf[pos:pos+len(b)] += b`, written pointwise. -/
def addAt (buf : List ℚ) (pos : ℕ) (b : List ℚ) : List ℚ :=
  (List.range buf.length).map
    (fun j => if pos ≤ j ∧ j < pos + b.length then buf.getD j 0 + b.getD (j - pos) 0
              else buf.getD j 0)

/-- `np.max(np.abs(w))` for the non-empty windows scanned by the loop. -/
def maxAbs (l : List ℚ) : ℚ := l.foldl (fun m x => max m |x|) 0

/-- The loop index list `range(window_size, len(audio) - window_size,
window_size // 2)` (empty when the stop bound is not above the start, and
also — matching the `ValueError` swallowed by the `except` — when the step
is `0`, since `Nat` division by zero gives `0`). -/
def breathCandidates (n ws step : ℕ) : List ℕ :=
  (List.range ((n - 2 * ws + step - 1) / step)).map (fun k => ws + k * step)

/-- State of the scanning loop: the working buffer, `last_insert`, and
`insert_positions`. -/
structure BreathState where
  buf : List ℚ
  last : ℤ
  poss : List ℕ

/-- One iteration of the scanning loop of `add_breathing_sounds`. -/
def breathStep (audio : List ℚ) (ws minDist : ℕ) (b : List ℚ)
    (st : BreathState) (i : ℕ) : BreathState :=
  if maxAbs ((audio.drop i).take ws) < 0.015 ∧ (i : ℤ) - st.last > (minDist : ℤ) then
    if i + ws / 2 + b.length < st.buf.length then
      ⟨addAt st.buf (i + ws / 2) b, ((i + ws / 2 : ℕ) : ℤ), st.poss ++ [i + ws / 2]⟩
    else st
  else st

/-- The whole scanning loop, started from `breathing_audio = audio.copy()`,
`last_insert = -min_distance`, `insert_positions = []`. -/
def breathScan (audio : List ℚ) (sr : ℕ) (b : List ℚ) : BreathState :=
  (breathCandidates audio.length (breathWs sr) (breathWs sr / 2)).foldl
    (breathStep audio (breathWs sr) (breathMinDist sr) b)
    ⟨audio, -(breathMinDist sr : ℤ), []⟩

/-- Python extended slice `l[::k]` for `k ≥ 1` (for `k = 0`, where Python
would raise, this returns just the head; that case never arises below). -/
def everyNth : List ℕ → ℕ → List ℕ
  | [], _ => []
  | a :: t, k => a :: everyNth (t.drop (k - 1)) k
termination_by l => l.length
decreasing_by
  simp only [List.length_cons, List.length_drop]
  omega

/-- `insert_positions[::len(insert_positions)//3][:3]`. -/
def keepPositions (poss : List ℕ) : List ℕ :=
  (everyNth poss (poss.length / 3)).take 3

/-- The re-synthesis loop over the kept positions, started from a fresh
`audio.copy()`, with the same bounds guard. -/
def applyBreaths (b : List ℚ) (audio : List ℚ) (keep : List ℕ) : List ℚ :=
  keep.foldl
    (fun buf pos => if pos + b.length < buf.length then addAt buf pos b else buf)
    audio

/-- `add_breathing_sounds(audio_data, samplerate)` from `voice/tts.py`. -/
def add_breathing_sounds (noise : ℕ → ℚ) (audio : List ℚ) (sr : ℕ) : List ℚ :=
  if breathLen sr ≠ 0 ∧ breathFade sr = 0 then audio
  else if 3 < (breathScan audio sr (breathB noise sr)).poss.length then
    applyBreaths (breathB noise sr) audio
      (keepPositions (breathScan audio sr (breathB noise sr)).poss)
  else (breathScan audio sr (breathB noise sr)).buf

/-- The positions at which the returned waveform actually received a breath:
the scan positions, unless more than 3 were found, in which case the kept
(and once more bounds-checked) subsample. -/
def appliedBreaths (noise : ℕ → ℚ) (audio : List ℚ) (sr : ℕ) : List ℕ :=
  if breathLen sr ≠ 0 ∧ breathFade sr = 0 then []
  else if 3 < (breathScan audio sr (breathB noise sr)).poss.length then
    (keepPositions (breathScan audio sr (breathB noise sr)).poss).filter
      (fun pos => pos + (breathB noise sr).length < audio.length)
  else (breathScan audio sr (breathB noise sr)).poss

theorem addAt_length (buf : List ℚ) (pos : ℕ) (b : List ℚ) :
    (addAt buf pos b).length = buf.length := by
  simp [addAt]

theorem addAt_getD_outside (buf : List ℚ) (pos : ℕ) (b : List ℚ) (j : ℕ)
    (h : j < pos ∨ pos + b.length ≤ j) :
    (addAt buf pos b).getD j 0 = buf.getD j 0 := by
  by_cases hj : j < buf.length
  · have hj' : j < (addAt buf pos b).length := by rw [addAt_length]; exact hj
    rw [List.getD_eq_getElem _ _ hj']
    simp only [addAt, List.getElem_map, List.getElem_range]
    rw [if_neg (by omega)]
  · rw [List.getD_eq_default, List.getD_eq_default]
    · omega
    · rw [addAt_length]; omega

/-- Loop invariant of the breath scan: buffer length is preserved, recorded
positions are in increasing order more than `min_distance` apart,
`last_insert` tracks the last recorded position, every recorded position
passed the bounds guard, and the buffer agrees with the input outside the
breath windows of the recorded positions. -/
def ScanInv (audio : List ℚ) (L minDist : ℕ) (st : BreathState) : Prop :=
  st.buf.length = audio.length ∧
  List.Chain' (fun p q => p + minDist < q) st.poss ∧
  (st.poss = [] → st.last = -(minDist : ℤ)) ∧
  (∀ p, st.poss.getLast? = some p → st.last = (p : ℤ)) ∧
  (∀ p ∈ st.poss, p + L < audio.length) ∧
  (∀ j : ℕ, (∀ p ∈ st.poss, j < p ∨ p + L ≤ j) → st.buf.getD j 0 = audio.getD j 0)

theorem breathStep_inv (audio : List ℚ) (ws minDist : ℕ) (b : List ℚ)
    (st : BreathState) (i : ℕ) (h : ScanInv audio b.length minDist st) :
    ScanInv audio b.length minDist (breathStep audio ws minDist b st i) := by
  obtain ⟨hlen, hchain, hnil, hlast, hguard, hframe⟩ := h
  unfold breathStep
  split
  · split
    · rename_i hcond hb
      refine ⟨?_, ?_, ?_, ?_, ?_, ?_⟩
      · simpa [addAt_length] using hlen
      · rw [List.chain'_append]
        refine ⟨hchain, List.chain'_singleton _, ?_⟩
        intro x hx y hy
        simp only [List.head?_cons, Option.mem_def, Option.some.injEq] at hy
        subst hy
        have hx' := hlast x hx
        have h2 := hcond.2
        rw [hx'] at h2
        omega
      · intro habs
        exact absurd habs (by simp)
      · intro p hp
        rw [List.getLast?_concat] at hp
        simp only [Option.some.injEq] at hp
        subst hp
        rfl
      · intro p hp
        rcases List.mem_append.mp hp with h' | h'
        · exact hguard p h'
        · simp only [List.mem_singleton] at h'
          subst h'
          rw [← hlen]
          exact hb
      · intro j hj
        have hjp := hj (i + ws / 2) (by simp)
        rw [addAt_getD_outside _ _ _ _ hjp]
        exact hframe j (fun p hp => hj p (by simp [hp]))
    · exact ⟨hlen, hchain, hnil, hlast, hguard, hframe⟩
  · exact ⟨hlen, hchain, hnil, hlast, hguard, hframe⟩

theorem scan_foldl_inv (audio : List ℚ) (ws minDist : ℕ) (b : List ℚ) :
    ∀ (l : List ℕ) (st : BreathState), ScanInv audio b.length minDist st →
      ScanInv audio b.length minDist (l.foldl (breathStep audio ws minDist b) st) := by
  intro l
  induction l with
  | nil => intro st h; exact h
  | cons i t ih =>
    intro st h
    exact ih _ (breathStep_inv audio ws minDist b st i h)

theorem breathScan_inv (audio : List ℚ) (sr : ℕ) (b : List ℚ) :
    ScanInv audio b.length (breathMinDist sr) (breathScan audio sr b) := by
  apply scan_foldl_inv
  refine ⟨rfl, List.chain'_nil, fun _ => rfl, ?_, ?_, ?_⟩
  · intro p hp
    simp [List.getLast?] at hp
  · intro p hp
    exact absurd hp (List.not_mem_nil p)
  · intro j _
    rfl

theorem scanPoss_pairwise (audio : List ℚ) (sr : ℕ) (b : List ℚ) :
    ((breathScan audio sr b).poss).Pairwise (fun p q => p + breathMinDist sr < q) := by
  have h := (breathScan_inv audio sr b).2.1
  haveI : IsTrans ℕ (fun p q => p + breathMinDist sr < q) := by
    refine ⟨fun a b c hab hbc => ?_⟩
    have hab' : a + breathMinDist sr < b := hab
    have hbc' : b + breathMinDist sr < c := hbc
    show a + breathMinDist sr < c
    omega
  exact List.chain'_iff_pairwise.mp h

theorem everyNth_sublist_aux :
    ∀ (n : ℕ) (l : List ℕ), l.length ≤ n → ∀ k, (everyNth l k).Sublist l := by
  intro n
  induction n with
  | zero =>
    intro l hl k
    have : l = [] := List.eq_nil_of_length_eq_zero (by omega)
    subst this
    simp [everyNth]
  | succ n ih =>
    intro l hl k
    match l with
    | [] => simp [everyNth]
    | a :: t =>
      rw [everyNth]
      refine List.Sublist.cons₂ _ ?_
      have h1 : (everyNth (t.drop (k - 1)) k).Sublist (t.drop (k - 1)) := by
        apply ih
        simp only [List.length_drop]
        simp only [List.length_cons] at hl
        omega
      exact h1.trans (List.drop_sublist _ _)

theorem everyNth_sublist (l : List ℕ) (k : ℕ) : (everyNth l k).Sublist l :=
  everyNth_sublist_aux l.length l le_rfl k

theorem keepPositions_sublist (poss : List ℕ) : (keepPositions poss).Sublist poss :=
  (List.take_sublist _ _).trans (everyNth_sublist poss (poss.length / 3))

theorem appliedBreaths_sublist_scan (noise : ℕ → ℚ) (audio : List ℚ) (sr : ℕ) :
    (appliedBreaths noise audio sr).Sublist ((breathScan audio sr (breathB noise sr)).poss) := by
  unfold appliedBreaths
  split
  · exact List.nil_sublist _
  · split
    · exact (List.filter_sublist _).trans (keepPositions_sublist _)
    · exact List.Sublist.refl _

theorem appliedBreaths_pairwise (noise : ℕ → ℚ) (audio : List ℚ) (sr : ℕ) :
    (appliedBreaths noise audio sr).Pairwise (fun p q => p + breathMinDist sr < q) :=
  (scanPoss_pairwise audio sr (breathB noise sr)).sublist
    (appliedBreaths_sublist_scan noise audio sr)

theorem appliedBreaths_card (noise : ℕ → ℚ) (audio : List ℚ) (sr : ℕ) :
    (appliedBreaths noise audio sr).length ≤ 3 := by
  unfold appliedBreaths
  split
  · simp
  · split
    · refine (List.length_filter_le _ _).trans ?_
      unfold keepPositions
      have := List.length_take_le 3 (everyNth (breathScan audio sr (breathB noise sr)).poss
        ((breathScan audio sr (breathB noise sr)).poss.length / 3))
      omega
    · omega

theorem breathB_length (noise : ℕ → ℚ) (sr : ℕ) :
    (breathB noise sr).length = breathLen sr := by
  simp [breathB, breath_sound]

theorem applyBreaths_length (b audio : List ℚ) (keep : List ℕ) :
    (applyBreaths b audio keep).length = audio.length := by
  suffices aux : ∀ (keep : List ℕ) (acc : List ℚ),
      (keep.foldl
        (fun buf pos => if pos + b.length < buf.length then addAt buf pos b else buf)
        acc).length = acc.length by
    exact aux keep audio
  intro keep
  induction keep with
  | nil => intro acc; rfl
  | cons p rest ih =>
    intro acc
    simp only [List.foldl_cons]
    rw [ih]
    split
    · exact addAt_length _ _ _
    · rfl

theorem applyBreaths_frame (b audio : List ℚ) (keep : List ℕ) (j : ℕ)
    (hj : ∀ p ∈ keep, p + b.length < audio.length → j < p ∨ p + b.length ≤ j) :
    (applyBreaths b audio keep).getD j 0 = audio.getD j 0 := by
  suffices aux : ∀ (keep : List ℕ) (acc : List ℚ), acc.length = audio.length →
      acc.getD j 0 = audio.getD j 0 →
      (∀ p ∈ keep, p + b.length < audio.length → j < p ∨ p + b.length ≤ j) →
      (keep.foldl
        (fun buf pos => if pos + b.length < buf.length then addAt buf pos b else buf)
        acc).getD j 0 = audio.getD j 0 by
    exact aux keep audio rfl rfl hj
  intro keep
  induction keep with
  | nil => intro acc _ h2 _; exact h2
  | cons p rest ih =>
    intro acc h1 h2 h3
    simp only [List.foldl_cons]
    by_cases hp : p + b.length < acc.length
    · rw [if_pos hp]
      refine ih _ (by rw [addAt_length]; exact h1) ?_
        (fun q hq hlt => h3 q (List.mem_cons_of_mem _ hq) hlt)
      rw [addAt_getD_outside _ _ _ _ (h3 p (List.mem_cons_self _ _) (h1 ▸ hp))]
      exact h2
    · rw [if_neg hp]
      exact ih _ h1 h2 (fun q hq hlt => h3 q (List.mem_cons_of_mem _ hq) hlt)

theorem add_breathing_sounds_length (noise : ℕ → ℚ) (audio : List ℚ) (sr : ℕ) :
    (add_breathing_sounds noise audio sr).length = audio.length := by
  unfold add_breathing_sounds
  split
  · rfl
  · split
    · exact applyBreaths_length _ _ _
    · exact (breathScan_inv audio sr (breathB noise sr)).1

theorem add_breathing_sounds_frame (noise : ℕ → ℚ) (audio : List ℚ) (sr : ℕ) (j : ℕ)
    (hj : ∀ p ∈ appliedBreaths noise audio sr, j < p ∨ p + breathLen sr ≤ j) :
    (add_breathing_sounds noise audio sr).getD j 0 = audio.getD j 0 := by
  rw [← breathB_length noise sr] at hj
  unfold add_breathing_sounds
  unfold appliedBreaths at hj
  split
  · rfl
  · rename_i hguard
    rw [if_neg hguard] at hj
    split
    · rename_i hmany
      rw [if_pos hmany] at hj
      refine applyBreaths_frame _ _ _ _ ?_
      intro p hp hlt
      exact hj p (List.mem_filter.mpr ⟨hp, by simpa using hlt⟩)
    · rename_i hfew
      rw [if_neg hfew] at hj
      exact (breathScan_inv audio sr (breathB noise sr)).2.2.2.2.2 j hj

theorem everyNth_one_aux : ∀ (n : ℕ) (l : List ℕ), l.length ≤ n → everyNth l 1 = l := by
  intro n
  induction n with
  | zero =>
    intro l hl
    have : l = [] := List.eq_nil_of_length_eq_zero (by omega)
    subst this
    simp [everyNth]
  | succ n ih =>
    intro l hl
    match l with
    | [] => simp [everyNth]
    | a :: t =>
      rw [everyNth]
      simp only [Nat.sub_self, List.drop_zero]
      rw [ih t (by simp at hl; omega)]

theorem everyNth_one (l : List ℕ) : everyNth l 1 = l :=
  everyNth_one_aux l.length l le_rfl

theorem everyNth_len1 (l : List ℕ) (k : ℕ) (h : 0 < l.length) :
    1 ≤ (everyNth l k).length := by
  match l with
  | [] => simp at h
  | a :: t => rw [everyNth]; simp

theorem everyNth_len2 :
    ∀ (n : ℕ) (l : List ℕ), l.length ≤ n → ∀ k, 0 < k → k < l.length →
      2 ≤ (everyNth l k).length := by
  intro n
  induction n with
  | zero =>
    intro l hl k hk hkl
    omega
  | succ n ih =>
    intro l hl k hk hkl
    match l with
    | [] => simp at hkl
    | a :: t =>
      rw [everyNth]
      simp only [List.length_cons]
      have h1 : 1 ≤ (everyNth (t.drop (k - 1)) k).length := by
        apply everyNth_len1
        simp only [List.length_drop]
        simp only [List.length_cons] at hkl
        omega
      omega

theorem everyNth_len3 :
    ∀ (n : ℕ) (l : List ℕ), l.length ≤ n → ∀ k, 0 < k → 2 * k < l.length →
      3 ≤ (everyNth l k).length := by
  intro n
  induction n with
  | zero =>
    intro l hl k hk hkl
    omega
  | succ n ih =>
    intro l hl k hk hkl
    match l with
    | [] => simp at hkl
    | a :: t =>
      rw [everyNth]
      simp only [List.length_cons]
      have h1 : 2 ≤ (everyNth (t.drop (k - 1)) k).length := by
        apply everyNth_len2 n _ _ k hk
        · simp only [List.length_drop]
          simp only [List.length_cons] at hkl
          omega
        · simp only [List.length_drop]
          simp only [List.length_cons] at hl
          omega
      omega

theorem keepPositions_len3 (poss : List ℕ) (h : 3 < poss.length) :
    (keepPositions poss).length = 3 := by
  unfold keepPositions
  rw [List.length_take]
  have hk1 : 1 ≤ poss.length / 3 := by omega
  have hk2 : 3 * (poss.length / 3) ≤ poss.length := Nat.mul_div_le _ _
  have h3 : 3 ≤ (everyNth poss (poss.length / 3)).length := by
    apply everyNth_len3 poss.length poss le_rfl _ (by omega)
    omega
  omega

/-- Concrete silent input used to exercise the `> 3 candidates` branch:
101 zero samples at sample rate 10. -/
def cexAudio : List ℚ := List.replicate 101 0

/-- Concrete zero draw sequence for the injected `np.random.normal` values. -/
def cexNoise : ℕ → ℚ := fun _ => 0

/-- C2: for every injected noise draw, input waveform and sample rate, the
breath-insertion stage applies at most 3 breaths, and any two applied breath
positions are at least `2 * samplerate` samples (2.0 seconds) apart. -/
theorem claim_C2_breath_limits (noise : ℕ → ℚ) (audio : List ℚ) (sr : ℕ) :
    (appliedBreaths noise audio sr).length ≤ 3 ∧
      (appliedBreaths noise audio sr).Pairwise (fun p q => p + 2 * sr ≤ q) := by
  refine ⟨appliedBreaths_card noise audio sr, ?_⟩
  refine List.Pairwise.imp ?_ (appliedBreaths_pairwise noise audio sr)
  intro a b hab
  have h : a + breathMinDist sr < b := hab
  unfold breathMinDist at h
  omega

set_option maxRecDepth 400000 in
/-- C7 counterexample: on 101 silent samples at rate 10 the scan records the
4 candidate positions `[12, 40, 68, 96]`, and the retained positions
`insert_positions[::4//3][:3]` are exactly the first 3 candidates — not an
"even subsample that is not the first 3". -/
theorem claim_C7_counterexample :
    ((breathScan cexAudio 10 (breathB cexNoise 10)).poss).length = 4 ∧
      keepPositions (breathScan cexAudio 10 (breathB cexNoise 10)).poss
        = ((breathScan cexAudio 10 (breathB cexNoise 10)).poss).take 3 := by
  constructor
  · with_unfolding_all rfl
  · with_unfolding_all rfl

/-- C7 (amended): whenever the scan records more than 3 candidate positions,
the output applies breaths exactly at
`insert_positions[::len(insert_positions)//3][:3]` — every
`(len//3)`-th candidate, truncated to 3 retained positions; this subsample
has stride 1 whenever `len(insert_positions)` is 4 or 5, in which case the
retained positions are exactly the first 3 candidates (so they are an even
subsample only for 6 or more candidates). -/
theorem claim_C7_amended_subsample (noise : ℕ → ℚ) (audio : List ℚ) (sr : ℕ)
    (hguard : ¬(breathLen sr ≠ 0 ∧ breathFade sr = 0))
    (hmany : 3 < (breathScan audio sr (breathB noise sr)).poss.length) :
    add_breathing_sounds noise audio sr
        = applyBreaths (breathB noise sr) audio
            (keepPositions (breathScan audio sr (breathB noise sr)).poss)
      ∧ keepPositions (breathScan audio sr (breathB noise sr)).poss
          = (everyNth (breathScan audio sr (breathB noise sr)).poss
              ((breathScan audio sr (breathB noise sr)).poss.length / 3)).take 3
      ∧ (keepPositions (breathScan audio sr (breathB noise sr)).poss).length = 3
      ∧ ((breathScan audio sr (breathB noise sr)).poss.length / 3 = 1 →
          keepPositions (breathScan audio sr (breathB noise sr)).poss
            = ((breathScan audio sr (breathB noise sr)).poss).take 3) := by
  refine ⟨?_, rfl, keepPositions_len3 _ hmany, ?_⟩
  · unfold add_breathing_sounds
    rw [if_neg hguard, if_pos hmany]
  · intro h1
    unfold keepPositions
    rw [h1, everyNth_one]

set_option maxRecDepth 400000 in
theorem claim_C7_amended_subsample_witness :
    (¬(breathLen 10 ≠ 0 ∧ breathFade 10 = 0))
      ∧ 3 < (breathScan cexAudio 10 (breathB cexNoise 10)).poss.length
      ∧ (keepPositions (breathScan cexAudio 10 (breathB cexNoise 10)).poss).length = 3 :=
  ⟨of_decide_eq_true (by with_unfolding_all rfl),
   of_decide_eq_true (by with_unfolding_all rfl),
   (claim_C7_amended_subsample cexNoise cexAudio 10
     (of_decide_eq_true (by with_unfolding_all rfl))
     (of_decide_eq_true (by with_unfolding_all rfl))).2.2.1⟩

/-- C10: breath insertion never changes the sample count — the output has
exactly as many samples as the input, breath noise being mixed additively
into existing samples — and every sample outside the windows
`[p, p + breath_samples)` of the applied breath positions is unchanged. -/
theorem claim_C10_breath_frame (noise : ℕ → ℚ) (audio : List ℚ) (sr : ℕ) :
    (add_breathing_sounds noise audio sr).length = audio.length ∧
      ∀ j : ℕ, (∀ p ∈ appliedBreaths noise audio sr, j < p ∨ p + breathLen sr ≤ j) →
        (add_breathing_sounds noise audio sr).getD j 0 = audio.getD j 0 :=
  ⟨add_breathing_sounds_length noise audio sr,
   fun j hj => add_breathing_sounds_frame noise audio sr j hj⟩

theorem claim_C10_breath_frame_witness :
    (∀ p ∈ appliedBreaths cexNoise ([1] : List ℚ) 0, (0 : ℕ) < p ∨ p + breathLen 0 ≤ 0)
      ∧ (add_breathing_sounds cexNoise ([1] : List ℚ) 0).getD 0 0
          = ([1] : List ℚ).getD 0 0 :=
  ⟨of_decide_eq_true (by with_unfolding_all rfl),
   (claim_C10_breath_frame cexNoise [1] 0).2 0
     (of_decide_eq_true (by with_unfolding_all rfl))⟩

/-!
## Resampling (`shift_pitch`, `change_speed`, `voice/tts.py` lines 253-273)
-/

/-- `np.interp(x, np.arange(len(data)), data)`: clamped linear
interpolation over the sample-index axis. -/
def interpAt (data : List ℚ) (x : ℚ) : ℚ :=
  if x ≤ 0 then data.getD 0 0
  else if ((data.length : ℚ) - 1) ≤ x then data.getD (data.length - 1) 0
  else
    data.getD (pyInt x) 0
      + (x - pyInt x) * (data.getD (pyInt x + 1) 0 - data.getD (pyInt x) 0)

/-- The common body of `shift_pitch` and `change_speed`:
`new_length = int(len(audio) / factor)`;
`indices = np.arange(new_length) * factor`; linear interpolation. -/
def resampleByFactor (factor : ℚ) (audio : List ℚ) : List ℚ :=
  (List.range (pyInt ((audio.length : ℚ) / factor))).map
    (fun (k : ℕ) => interpAt audio ((k : ℚ) * factor))

/-- `shift_pitch(audio, samplerate, semitones)` resamples by
`factor = 2 ** (semitones / 12.0)`; the factor is passed already evaluated
(`+12` semitones give exactly `2`, `-12` give exactly `1/2`). -/
def shift_pitch (semitoneFactor : ℚ) (audio : List ℚ) : List ℚ :=
  resampleByFactor semitoneFactor audio

/-- `change_speed(audio, speed_factor)`. -/
def change_speed (speed_factor : ℚ) (audio : List ℚ) : List ℚ :=
  resampleByFactor speed_factor audio

theorem resampleByFactor_length (factor : ℚ) (audio : List ℚ) :
    (resampleByFactor factor audio).length = pyInt ((audio.length : ℚ) / factor) := by
  unfold resampleByFactor
  rw [List.length_map, List.length_range]

theorem pyInt_natCast_div_two (n : ℕ) : pyInt ((n : ℚ) / 2) = n / 2 := by
  rw [pyInt_eq_natFloor]
  exact_mod_cast Rat.natFloor_natCast_div_natCast n 2

theorem pyInt_natCast_div_half (m : ℕ) : pyInt ((m : ℚ) / (1 / 2)) = 2 * m := by
  have h : ((m : ℚ) / (1 / 2)) = ((2 * m : ℕ) : ℚ) := by push_cast; ring
  rw [h, pyInt_eq_natFloor, Nat.floor_natCast]

theorem shift_pitch_roundtrip_length (audio : List ℚ) :
    (shift_pitch (1 / 2) (shift_pitch 2 audio)).length = 2 * (audio.length / 2) := by
  unfold shift_pitch
  rw [resampleByFactor_length, resampleByFactor_length, pyInt_natCast_div_two,
    pyInt_natCast_div_half]

/-- C9 counterexample: a 999-sample waveform comes back from the
`+12` / `−12` semitone round trip with 998 samples; the 1-sample difference
exceeds "1 sample per 1000 samples of the original" (999 / 1000 < 1). -/
theorem claim_C9_counterexample :
    (shift_pitch (1 / 2) (shift_pitch 2 (List.replicate 999 (0 : ℚ)))).length = 998
      ∧ ¬(1000 * (999 -
            (shift_pitch (1 / 2) (shift_pitch 2 (List.replicate 999 (0 : ℚ)))).length) ≤ 999) := by
  have h : (shift_pitch (1 / 2) (shift_pitch 2 (List.replicate 999 (0 : ℚ)))).length = 998 := by
    rw [shift_pitch_roundtrip_length, List.length_replicate]
  rw [h]
  norm_num

/-- C9 (amended): for every input waveform the `+12` then `−12` semitone
round trip changes the sample count by at most one sample (the output has
`2 * (n / 2)` samples), which is within 1 per 1000 only once the input has
at least 1000 samples. -/
theorem claim_C9_amended_roundtrip (audio : List ℚ) :
    audio.length - 1 ≤ (shift_pitch (1 / 2) (shift_pitch 2 audio)).length
      ∧ (shift_pitch (1 / 2) (shift_pitch 2 audio)).length ≤ audio.length := by
  rw [shift_pitch_roundtrip_length]
  omega

/-!
## Emotion profile table and paralinguistic overlays
(`EMOTION_PARAMS`, `add_giggle_effect`, `add_sigh_effect`,
`create_emotional_laugh`, `add_emotional_laughter`, `add_emotional_sounds`,
`voice/tts.py` lines 83-324, 377-486)
-/

/-- One entry of the `EMOTION_PARAMS` dictionary. -/
structure EmotionProfile where
  pitch_shift : ℚ
  speed_factor : ℚ
  volume_boost : ℚ
  add_giggle : Bool
  add_sigh : Bool
  voice_style : String

/-- `EMOTION_PARAMS.get(emotion, EMOTION_PARAMS["neutral"])`: the profile
table with its unknown-key default (the `text_modifiers` lists, consumed only
by the text embellisher, are not needed by any claim and are omitted). -/
def EMOTION_PARAMS : String → EmotionProfile
  | "happy" => ⟨1.5, 1.08, 1.1, true, false, "cheerful"⟩
  | "sad" => ⟨-1.0, 0.92, 0.9, false, true, "calm"⟩
  | "excited" => ⟨2.0, 1.15, 1.2, true, false, "excited"⟩
  | "angry" => ⟨-0.5, 1.1, 1.3, false, false, "angry"⟩
  | "flirty" => ⟨1.2, 0.95, 1.05, true, false, "seductive"⟩
  | "tender" => ⟨-0.3, 0.88, 0.95, false, true, "gentle"⟩
  | "playful" => ⟨1.8, 1.12, 1.15, true, false, "playful"⟩
  | "whisper" => ⟨-2.0, 0.85, 0.4, false, false, "whispering"⟩
  | "surprised" => ⟨2.5, 1.2, 1.25, false, false, "surprised"⟩
  | "confused" => ⟨0.5, 0.9, 0.95, false, true, "confused"⟩
  | "sarcastic" => ⟨-0.8, 0.95, 1.1, false, false, "sarcastic"⟩
  | _ => ⟨0.0, 1.0, 1.0, false, false, "neutral"⟩

/-- Injected evaluators for the numpy transcendentals (`np.sin`, `np.exp`)
and the constant `np.pi`; only the structure of the generated buffers —
never these sample values — is relied on by any theorem. -/
structure Dsp where
  sinq : ℚ → ℚ
  expq : ℚ → ℚ
  piq : ℚ

/-- A trivially-instantiated `Dsp` used in concrete witnesses. -/
def dsp0 : Dsp := ⟨fun _ => 0, fun _ => 0, 0⟩

/-- One sample of the per-emotion laugh tone of `create_emotional_laugh`:
`sin(2π·f0·t·(1 + modAmp·sin(2π·modFreq·t))) · exp(−t·decay)` with
`t = linspace(0, tEnd, n)[i]`. -/
def laughTone (dsp : Dsp) (tEnd f0 modAmp modFreq decay : ℚ) (n i : ℕ) : ℚ :=
  dsp.sinq (2 * dsp.piq * f0 * linspaceAt 0 tEnd n i
      * (1 + modAmp * dsp.sinq (2 * dsp.piq * modFreq * linspaceAt 0 tEnd n i)))
    * dsp.expq (-(linspaceAt 0 tEnd n i) * decay)

/-- `create_emotional_laugh(samplerate, emotion)` with the random draws
injected: `duration = random.uniform(0.5, 1.5)` and the
`np.random.normal(0, 0.02, samples)` breathiness noise.  The guard models
the numpy broadcast `ValueError` (caught, returning `np.array([])`) that the
envelope assignments raise when `samples < fade_samples`, or when
`fade_samples = 0` while `samples > 0`. -/
def create_emotional_laugh (dsp : Dsp) (noise : ℕ → ℚ) (sr : ℕ)
    (emotion : String) (duration : ℚ) : List ℚ :=
  if pyInt (duration * sr) < pyInt ((0.1 : ℚ) * sr)
      ∨ (pyInt ((0.1 : ℚ) * sr) = 0 ∧ pyInt (duration * sr) ≠ 0) then []
  else
    (List.range (pyInt (duration * sr))).map (fun (i : ℕ) =>
      ((if emotion = "happy" then laughTone dsp duration 250 0.5 6 1.5 (pyInt (duration * sr)) i
        else if emotion = "playful" then laughTone dsp duration 300 0.3 8 2 (pyInt (duration * sr)) i
        else if emotion = "flirty" then laughTone dsp duration 220 0.2 4 1 (pyInt (duration * sr)) i
        else if emotion = "sarcastic" then
          laughTone dsp (duration * 0.7) 180 0.4 10 3 (pyInt (duration * sr)) i
        else laughTone dsp duration 200 0.3 5 2 (pyInt (duration * sr)) i)
        + noise i)
        * env2At (pyInt (duration * sr)) (pyInt ((0.1 : ℚ) * sr)) (pyInt ((0.1 : ℚ) * sr)) i
        * 0.2)

/-- `add_emotional_laughter(audio, samplerate, emotion)` with the
`random.random()` draw `r` and the laugh's random inputs injected. -/
def add_emotional_laughter (dsp : Dsp) (noise : ℕ → ℚ) (sr : ℕ) (emotion : String)
    (r duration : ℚ) (audio : List ℚ) : List ℚ :=
  if (emotion = "happy" ∨ emotion = "playful" ∨ emotion = "flirty" ∨ emotion = "excited")
      ∧ r < (0.6 : ℚ) then
    if 0 < (create_emotional_laugh dsp noise sr emotion duration).length then
      audio ++ List.replicate (pyInt ((0.15 : ℚ) * sr)) 0
        ++ create_emotional_laugh dsp noise sr emotion duration
    else audio
  else audio

/-- `add_giggle_effect(audio, samplerate)`.  The guard models the numpy
broadcast `ValueError` (caught, returning the input unchanged) raised by
`envelope[-fade:] = linspace(1, 0, 0)` when `fade_samples = 0` while the
giggle buffer is non-empty (sample rates 2–9). -/
def add_giggle_effect (dsp : Dsp) (noise : ℕ → ℚ) (sr : ℕ) (audio : List ℚ) : List ℚ :=
  if 0 < pyInt ((0.8 : ℚ) * sr) ∧ pyInt ((0.1 : ℚ) * sr) = 0 then audio
  else
    audio ++ List.replicate (pyInt ((0.2 : ℚ) * sr)) 0
      ++ (List.range (pyInt ((0.8 : ℚ) * sr))).map (fun (i : ℕ) =>
        ((dsp.sinq (2 * dsp.piq * 300 * linspaceAt 0 0.8 (pyInt ((0.8 : ℚ) * sr)) i)
            * dsp.expq (-(linspaceAt 0 0.8 (pyInt ((0.8 : ℚ) * sr)) i) * 2)
            * (1 + 0.3 * dsp.sinq (2 * dsp.piq * 8 * linspaceAt 0 0.8 (pyInt ((0.8 : ℚ) * sr)) i))
          + noise i)
          * env2At (pyInt ((0.8 : ℚ) * sr)) (pyInt ((0.1 : ℚ) * sr)) (pyInt ((0.1 : ℚ) * sr)) i
          * 0.3))

/-- `add_sigh_effect(audio, samplerate)`, falling-pitch tone
`freq = 200 - (200 - 80)·(t / 1.2)`; the guard models the broadcast
`ValueError` from `envelope[-decay:]` when `decay_samples = 0` while the
sigh buffer is non-empty (sample rates 1–2). -/
def add_sigh_effect (dsp : Dsp) (noise : ℕ → ℚ) (sr : ℕ) (audio : List ℚ) : List ℚ :=
  if 0 < pyInt ((1.2 : ℚ) * sr) ∧ pyInt ((0.4 : ℚ) * sr) = 0 then audio
  else
    audio ++ List.replicate (pyInt ((0.3 : ℚ) * sr)) 0
      ++ (List.range (pyInt ((1.2 : ℚ) * sr))).map (fun (i : ℕ) =>
        ((dsp.sinq (2 * dsp.piq
              * (200 - 120 * linspaceAt 0 1.2 (pyInt ((1.2 : ℚ) * sr)) i / (1.2 : ℚ))
              * linspaceAt 0 1.2 (pyInt ((1.2 : ℚ) * sr)) i)
            * dsp.expq (-(linspaceAt 0 1.2 (pyInt ((1.2 : ℚ) * sr)) i) * 0.8)
          + noise i)
          * env2At (pyInt ((1.2 : ℚ) * sr)) (pyInt ((0.3 : ℚ) * sr)) (pyInt ((0.4 : ℚ) * sr)) i
          * 0.25))

/-- The giggle stage of `add_emotional_sounds`. -/
def overlayGiggleStage (dsp : Dsp) (ng : ℕ → ℚ) (sr : ℕ) (emotion : String)
    (audio : List ℚ) : List ℚ :=
  if (EMOTION_PARAMS emotion).add_giggle then add_giggle_effect dsp ng sr audio else audio

/-- The sigh stage of `add_emotional_sounds`. -/
def overlaySighStage (dsp : Dsp) (ns : ℕ → ℚ) (sr : ℕ) (emotion : String)
    (audio : List ℚ) : List ℚ :=
  if (EMOTION_PARAMS emotion).add_sigh then add_sigh_effect dsp ns sr audio else audio

/-- `add_emotional_sounds(audio, samplerate, emotion)`: giggle, then sigh,
then the probabilistic emotional laughter. -/
def add_emotional_sounds (dsp : Dsp) (ng ns nl : ℕ → ℚ) (sr : ℕ) (emotion : String)
    (r duration : ℚ) (audio : List ℚ) : List ℚ :=
  add_emotional_laughter dsp nl sr emotion r duration
    (overlaySighStage dsp ns sr emotion (overlayGiggleStage dsp ng sr emotion audio))

/-- The waveform post-processing chain of `speak_async`: breath insertion
followed by the emotional overlays (and nothing else — see C1). -/
def speakPostProcess (dsp : Dsp) (nb ng ns nl : ℕ → ℚ) (sr : ℕ) (emotion : String)
    (r duration : ℚ) (audio : List ℚ) : List ℚ :=
  add_emotional_sounds dsp ng ns nl sr emotion r duration
    (add_breathing_sounds nb audio sr)

theorem pyInt_ge_one (c : ℚ) (sr : ℕ) (h : (1 : ℚ) ≤ c * sr) : 1 ≤ pyInt (c * sr) := by
  rw [pyInt_eq_natFloor]
  exact Nat.le_floor (by exact_mod_cast h)

theorem pyInt_mul_le (c : ℚ) (sr : ℕ) (hc0 : 0 ≤ c) (hc1 : c ≤ 1) : pyInt (c * sr) ≤ sr := by
  rw [pyInt_eq_natFloor]
  calc ⌊c * (sr : ℚ)⌋₊ ≤ ⌊((sr : ℕ) : ℚ)⌋₊ := by
        apply Nat.floor_mono
        nlinarith [Nat.cast_nonneg (α := ℚ) sr]
    _ = sr := Nat.floor_natCast sr

theorem pyInt_one_mul (sr : ℕ) : pyInt ((1 : ℚ) * sr) = sr := by
  rw [one_mul, pyInt_eq_natFloor, Nat.floor_natCast]

theorem tenth_ge_one (sr : ℕ) (hsr : 10 ≤ sr) : (1 : ℚ) ≤ (0.1 : ℚ) * sr := by
  have h : (10 : ℚ) ≤ (sr : ℚ) := by exact_mod_cast hsr
  nlinarith

theorem add_giggle_effect_length (dsp : Dsp) (ng : ℕ → ℚ) (sr : ℕ) (audio : List ℚ)
    (h : ¬(0 < pyInt ((0.8 : ℚ) * sr) ∧ pyInt ((0.1 : ℚ) * sr) = 0)) :
    (add_giggle_effect dsp ng sr audio).length
      = audio.length + pyInt ((0.2 : ℚ) * sr) + pyInt ((0.8 : ℚ) * sr) := by
  unfold add_giggle_effect
  rw [if_neg h]
  simp [List.length_append, Nat.add_assoc]

theorem overlayStages_happy_len (dsp : Dsp) (ng ns : ℕ → ℚ) (sr : ℕ) (audio : List ℚ)
    (hsr : 10 ≤ sr) :
    (overlaySighStage dsp ns sr "happy" (overlayGiggleStage dsp ng sr "happy" audio)).length
      = audio.length + pyInt ((0.2 : ℚ) * sr) + pyInt ((0.8 : ℚ) * sr) := by
  unfold overlaySighStage overlayGiggleStage
  rw [show (EMOTION_PARAMS "happy").add_sigh = false from rfl,
    show (EMOTION_PARAMS "happy").add_giggle = true from rfl]
  simp only [Bool.false_eq_true, if_false, if_true]
  apply add_giggle_effect_length
  rintro ⟨-, h0⟩
  have := pyInt_ge_one 0.1 sr (tenth_ge_one sr hsr)
  omega

theorem create_emotional_laugh_length (dsp : Dsp) (noise : ℕ → ℚ) (sr : ℕ)
    (emotion : String) (hsr : 10 ≤ sr) :
    (create_emotional_laugh dsp noise sr emotion 1).length = sr := by
  have h1 : pyInt ((1 : ℚ) * sr) = sr := pyInt_one_mul sr
  have h2 : pyInt ((sr : ℕ) : ℚ) = sr := by rw [pyInt_eq_natFloor, Nat.floor_natCast]
  unfold create_emotional_laugh
  rw [if_neg]
  · simp [h1, h2]
  · rintro (h | ⟨hf, -⟩)
    · rw [h1] at h
      have := pyInt_mul_le 0.1 sr (by norm_num) (by norm_num)
      omega
    · have := pyInt_ge_one 0.1 sr (tenth_ge_one sr hsr)
      omega

theorem add_emotional_laughter_length_ge (dsp : Dsp) (noise : ℕ → ℚ) (sr : ℕ)
    (emotion : String) (r d : ℚ) (audio : List ℚ) :
    audio.length ≤ (add_emotional_laughter dsp noise sr emotion r d audio).length := by
  unfold add_emotional_laughter
  split
  · split
    · simp
    · exact le_refl _
  · exact le_refl _

theorem add_emotional_laughter_no (dsp : Dsp) (noise : ℕ → ℚ) (sr : ℕ)
    (emotion : String) (r d : ℚ) (audio : List ℚ) (hr : ¬ r < (0.6 : ℚ)) :
    add_emotional_laughter dsp noise sr emotion r d audio = audio := by
  unfold add_emotional_laughter
  rw [if_neg (fun hc => hr hc.2)]

theorem add_emotional_laughter_happy_len (dsp : Dsp) (noise : ℕ → ℚ) (sr : ℕ)
    (audio : List ℚ) (hsr : 10 ≤ sr) :
    (add_emotional_laughter dsp noise sr "happy" 0 1 audio).length
      = audio.length + pyInt ((0.15 : ℚ) * sr) + sr := by
  unfold add_emotional_laughter
  rw [if_pos ⟨Or.inl rfl, by norm_num⟩,
    if_pos (by rw [create_emotional_laugh_length dsp noise sr "happy" hsr]; omega)]
  simp [create_emotional_laugh_length dsp noise sr "happy" hsr, Nat.add_assoc]

/-- C8 counterexample: with emotion "happy" a giggle (0.2 s pause + 0.8 s
giggle) is appended unconditionally before the 0.6-probability laugh draw,
so for NO outcome `(r, d)` of the random source is the overlay output not
longer than the pre-overlay waveform: the claim's second branch
("sometimes it does not produce output longer") is unreachable. -/
theorem claim_C8_counterexample :
    ¬ ∃ r d : ℚ, ¬ (([0] : List ℚ).length
        < (add_emotional_sounds dsp0 (fun _ => 0) (fun _ => 0) (fun _ => 0)
            10 "happy" r d [0]).length) := by
  rintro ⟨r, d, hno⟩
  apply hno
  have hbase := overlayStages_happy_len dsp0 (fun _ => 0) (fun _ => 0) 10 ([0] : List ℚ) (le_refl 10)
  have he1 : pyInt ((0.2 : ℚ) * (10 : ℕ)) = 2 := by with_unfolding_all rfl
  have he2 : pyInt ((0.8 : ℚ) * (10 : ℕ)) = 8 := by with_unfolding_all rfl
  rw [he1, he2] at hbase
  simp only [List.length_singleton] at hbase
  have hge := add_emotional_laughter_length_ge dsp0 (fun _ => 0) 10 "happy" r d
    (overlaySighStage dsp0 (fun _ => 0) 10 "happy"
      (overlayGiggleStage dsp0 (fun _ => 0) 10 "happy" ([0] : List ℚ)))
  unfold add_emotional_sounds
  simp only [List.length_singleton]
  omega

/-- C8 (amended): with emotion "happy" both branches of the 0.6-probability
draw are reachable and distinguishable by length — with draw `r = 1`
(`¬ r < 0.6`) no laugh is appended and the output is the pre-overlay
waveform plus the unconditional 0.2 s pause + 0.8 s giggle (already strictly
longer than the pre-overlay waveform); with draw `r = 0` (`r < 0.6`) and
laugh duration `d = 1` the output is additionally longer by the 0.15 s pause
plus the laugh.  The claim's assertion that some outcome is not longer than
the pre-overlay waveform is false (see the counterexample). -/
theorem claim_C8_amended_branches (dsp : Dsp) (ng ns nl : ℕ → ℚ) (sr : ℕ)
    (audio : List ℚ) (hsr : 10 ≤ sr) :
    (add_emotional_sounds dsp ng ns nl sr "happy" 1 1 audio).length
        = audio.length + pyInt ((0.2 : ℚ) * sr) + pyInt ((0.8 : ℚ) * sr)
      ∧ audio.length < (add_emotional_sounds dsp ng ns nl sr "happy" 1 1 audio).length
      ∧ (add_emotional_sounds dsp ng ns nl sr "happy" 0 1 audio).length
          = (add_emotional_sounds dsp ng ns nl sr "happy" 1 1 audio).length
              + pyInt ((0.15 : ℚ) * sr) + sr
      ∧ (add_emotional_sounds dsp ng ns nl sr "happy" 1 1 audio).length
          < (add_emotional_sounds dsp ng ns nl sr "happy" 0 1 audio).length := by
  have hbase := overlayStages_happy_len dsp ng ns sr audio hsr
  have hno : add_emotional_sounds dsp ng ns nl sr "happy" 1 1 audio
      = overlaySighStage dsp ns sr "happy" (overlayGiggleStage dsp ng sr "happy" audio) := by
    unfold add_emotional_sounds
    exact add_emotional_laughter_no dsp nl sr "happy" 1 1 _ (by norm_num)
  have hyes : (add_emotional_sounds dsp ng ns nl sr "happy" 0 1 audio).length
      = (overlaySighStage dsp ns sr "happy" (overlayGiggleStage dsp ng sr "happy" audio)).length
        + pyInt ((0.15 : ℚ) * sr) + sr := by
    unfold add_emotional_sounds
    exact add_emotional_laughter_happy_len dsp nl sr _ hsr
  have hg1 : 1 ≤ pyInt ((0.8 : ℚ) * sr) := by
    apply pyInt_ge_one
    have h : (10 : ℚ) ≤ (sr : ℚ) := by exact_mod_cast hsr
    nlinarith
  refine ⟨by rw [hno, hbase], ?_, ?_, ?_⟩
  · rw [hno, hbase]; omega
  · rw [hyes, hno]
  · rw [hyes, hno]; omega

theorem claim_C8_amended_branches_witness :
    10 ≤ 10 ∧ (([0] : List ℚ).length
      < (add_emotional_sounds dsp0 (fun _ => 0) (fun _ => 0) (fun _ => 0)
          10 "happy" 1 1 [0]).length) :=
  ⟨le_refl 10,
   (claim_C8_amended_branches dsp0 (fun _ => 0) (fun _ => 0) (fun _ => 0)
     10 [0] (le_refl 10)).2.1⟩

theorem overlay_whisper_id (dsp : Dsp) (ng ns nl : ℕ → ℚ) (sr : ℕ) (r d : ℚ)
    (audio : List ℚ) :
    add_emotional_sounds dsp ng ns nl sr "whisper" r d audio = audio := by
  unfold add_emotional_sounds overlaySighStage overlayGiggleStage
  rw [show (EMOTION_PARAMS "whisper").add_sigh = false from rfl,
    show (EMOTION_PARAMS "whisper").add_giggle = false from rfl]
  simp only [Bool.false_eq_true, if_false]
  unfold add_emotional_laughter
  rw [if_neg (fun hc => absurd hc.1 (by decide))]

/-- C1 (amended): the speak pipeline's waveform post-processing consists of
breath insertion followed by the paralinguistic overlays only — no
pitch-shift or speed-change resampling is applied (`shift_pitch` /
`change_speed` exist in the source but `apply_emotional_modifications` is
never invoked).  In particular for the "whisper" profile, whose pitch shift
is nonzero and whose speed factor is not 1 (so the claim would require two
resampling stages), the pipeline output has exactly the input's length for
every input, sample rate and random outcome. -/
theorem claim_C1_amended_no_resample (dsp : Dsp) (nb ng ns nl : ℕ → ℚ) (sr : ℕ)
    (r d : ℚ) (audio : List ℚ) :
    (speakPostProcess dsp nb ng ns nl sr "whisper" r d audio).length = audio.length
      ∧ (EMOTION_PARAMS "whisper").pitch_shift ≠ 0
      ∧ (EMOTION_PARAMS "whisper").speed_factor ≠ 1 := by
  refine ⟨?_, ?_, ?_⟩
  · unfold speakPostProcess
    rw [overlay_whisper_id]
    exact add_breathing_sounds_length nb audio sr
  · rw [show (EMOTION_PARAMS "whisper").pitch_shift = (-2.0 : ℚ) from rfl]
    norm_num
  · rw [show (EMOTION_PARAMS "whisper").speed_factor = (0.85 : ℚ) from rfl]
    norm_num

/-- C1 counterexample: on 100 constant samples at rate 10 with emotion
"whisper" (profile pitch shift −2 semitones, speed factor 0.85) the code's
post-processing returns exactly 100 samples, whereas the claimed final
stages — a pitch resample by the factor `2^(−2/12)` (some `f` with
`0 < f ≤ 1`) followed by a speed resample by `0.85` — cannot yield a
100-sample output from it: the two stages were not applied. -/
theorem claim_C1_counterexample :
    (speakPostProcess dsp0 (fun _ => 0) (fun _ => 0) (fun _ => 0) (fun _ => 0)
        10 "whisper" 1 1 (List.replicate 100 (1 : ℚ))).length = 100
      ∧ ¬ ∃ f : ℚ, 0 < f ∧ f ≤ 1 ∧
          (change_speed ((EMOTION_PARAMS "whisper").speed_factor)
              (shift_pitch f (speakPostProcess dsp0 (fun _ => 0) (fun _ => 0) (fun _ => 0)
                (fun _ => 0) 10 "whisper" 1 1 (List.replicate 100 (1 : ℚ))))).length
            = 100 := by
  have h1 : (speakPostProcess dsp0 (fun _ => 0) (fun _ => 0) (fun _ => 0) (fun _ => 0)
      10 "whisper" 1 1 (List.replicate 100 (1 : ℚ))).length = 100 := by
    unfold speakPostProcess
    rw [overlay_whisper_id, add_breathing_sounds_length, List.length_replicate]
  refine ⟨h1, ?_⟩
  rintro ⟨f, hf0, hf1, heq⟩
  have hm : 100 ≤ (shift_pitch f (speakPostProcess dsp0 (fun _ => 0) (fun _ => 0) (fun _ => 0)
      (fun _ => 0) 10 "whisper" 1 1 (List.replicate 100 (1 : ℚ)))).length := by
    unfold shift_pitch
    rw [resampleByFactor_length, h1, pyInt_eq_natFloor]
    apply Nat.le_floor
    rw [le_div_iff hf0]
    push_cast
    nlinarith
  set m := (shift_pitch f (speakPostProcess dsp0 (fun _ => 0) (fun _ => 0) (fun _ => 0)
      (fun _ => 0) 10 "whisper" 1 1 (List.replicate 100 (1 : ℚ)))).length with hmdef
  have h2 : (change_speed ((EMOTION_PARAMS "whisper").speed_factor)
      (shift_pitch f (speakPostProcess dsp0 (fun _ => 0) (fun _ => 0) (fun _ => 0)
        (fun _ => 0) 10 "whisper" 1 1 (List.replicate 100 (1 : ℚ))))).length
      = pyInt ((m : ℚ) / (0.85 : ℚ)) := by
    unfold change_speed
    rw [show (EMOTION_PARAMS "whisper").speed_factor = (0.85 : ℚ) from rfl,
      resampleByFactor_length]
  have h3 : 117 ≤ pyInt ((m : ℚ) / (0.85 : ℚ)) := by
    rw [pyInt_eq_natFloor]
    apply Nat.le_floor
    rw [le_div_iff (by norm_num)]
    have hm' : (100 : ℚ) ≤ (m : ℚ) := by exact_mod_cast hm
    nlinarith
  rw [h2] at heq
  omega

/-!
## Giggle cache (`voice/giggle_cache.py`)

The on-disk cache is modelled as a predicate `fs : List Char → Bool` over
file names; `edge_tts` synthesis success is the deterministic oracle
`synthOk`.  The constant directory prefix `GIGGLE_DIR` is common to every
path and is omitted from the names.
-/

/-- Decimal digit character, `chr(48 + d)`. -/
def digitChar (d : ℕ) : Char := Char.ofNat (48 + d)

/-- Decimal rendering of a natural number, as produced by the f-string
`f"giggle_{lang}_{i}_{v}.wav"`. -/
def natRepr (n : ℕ) : List Char :=
  if n < 10 then [digitChar n] else natRepr (n / 10) ++ [digitChar (n % 10)]
termination_by n
decreasing_by exact Nat.div_lt_self (by omega) (by omega)

theorem digitChar_toNat (d : ℕ) (hd : d < 10) : (digitChar d).toNat = 48 + d := by
  interval_cases d <;> decide

theorem digitChar_ne (d : ℕ) (hd : d < 10) : digitChar d ≠ '_' ∧ digitChar d ≠ '.' := by
  interval_cases d <;> exact ⟨by decide, by decide⟩

theorem natRepr_chars (n : ℕ) : ∀ c ∈ natRepr n, c ≠ '_' ∧ c ≠ '.' := by
  induction n using Nat.strong_induction_on with
  | _ n ih =>
    intro c hc
    rw [natRepr] at hc
    by_cases h : n < 10
    · rw [if_pos h] at hc
      simp only [List.mem_singleton] at hc
      subst hc
      exact digitChar_ne n h
    · rw [if_neg h] at hc
      rcases List.mem_append.mp hc with h' | h'
      · exact ih (n / 10) (Nat.div_lt_self (by omega) (by omega)) c h'
      · simp only [List.mem_singleton] at h'
        subst h'
        exact digitChar_ne _ (Nat.mod_lt _ (by omega))

/-- Value of a digit string, inverse to `natRepr`. -/
def decDigits (l : List Char) : ℕ := l.foldl (fun a c => 10 * a + (c.toNat - 48)) 0

theorem decDigits_natRepr (n : ℕ) : decDigits (natRepr n) = n := by
  induction n using Nat.strong_induction_on with
  | _ n ih =>
    rw [natRepr]
    by_cases h : n < 10
    · rw [if_pos h]
      show 10 * 0 + ((digitChar n).toNat - 48) = n
      rw [digitChar_toNat n h]
      omega
    · rw [if_neg h]
      show ((natRepr (n / 10)) ++ [digitChar (n % 10)]).foldl
        (fun a c => 10 * a + (c.toNat - 48)) 0 = n
      rw [List.foldl_append]
      have h1 := ih (n / 10) (Nat.div_lt_self (by omega) (by omega))
      show 10 * decDigits (natRepr (n / 10)) + ((digitChar (n % 10)).toNat - 48) = n
      rw [h1, digitChar_toNat _ (Nat.mod_lt _ (by omega))]
      omega

theorem natRepr_inj {a b : ℕ} (h : natRepr a = natRepr b) : a = b := by
  rw [← decDigits_natRepr a, ← decDigits_natRepr b, h]

/-- Splitting a concatenation at the first occurrence of a separator that
appears in neither left part. -/
theorem sep_split (sep : Char) :
    ∀ (xs ys r r' : List Char), (∀ c ∈ xs, c ≠ sep) → (∀ c ∈ ys, c ≠ sep) →
      xs ++ sep :: r = ys ++ sep :: r' → xs = ys ∧ r = r' := by
  intro xs
  induction xs with
  | nil =>
    intro ys r r' _ hys h
    cases ys with
    | nil =>
      simp only [List.nil_append] at h
      exact ⟨rfl, by injection h⟩
    | cons y yt =>
      simp only [List.nil_append, List.cons_append] at h
      have hy : y = sep := by injection h with h1 _; exact h1.symm
      exact absurd hy (hys y (List.mem_cons_self _ _))
  | cons x xt ih =>
    intro ys r r' hxs hys h
    cases ys with
    | nil =>
      simp only [List.nil_append, List.cons_append] at h
      have hx : x = sep := by
        have h' := congrArg List.head? h
        simpa using h'
      exact absurd hx (hxs x (List.mem_cons_self _ _))
    | cons y yt =>
      simp only [List.cons_append] at h
      injection h with h1 h2
      subst h1
      obtain ⟨he, hr⟩ := ih yt r r' (fun c hc => hxs c (List.mem_cons_of_mem _ hc))
        (fun c hc => hys c (List.mem_cons_of_mem _ hc)) h2
      exact ⟨by rw [he], hr⟩

/-- `os.path.join(GIGGLE_DIR, f"giggle_{lang}_{i}_{v}.wav")` without the
constant directory part. -/
def giggle_path (lang : List Char) (i v : ℕ) : List Char :=
  "giggle_".toList ++ lang ++ '_' :: natRepr i ++ '_' :: natRepr v ++ ".wav".toList

theorem giggle_path_inj (lang lang' : List Char) (i v i' v' : ℕ)
    (hl : ∀ c ∈ lang, c ≠ '_') (hl' : ∀ c ∈ lang', c ≠ '_')
    (h : giggle_path lang i v = giggle_path lang' i' v') :
    lang = lang' ∧ i = i' ∧ v = v' := by
  unfold giggle_path at h
  have h0 : lang ++ '_' :: (natRepr i ++ '_' :: (natRepr v ++ ".wav".toList))
      = lang' ++ '_' :: (natRepr i' ++ '_' :: (natRepr v' ++ ".wav".toList)) := by
    have := h
    simp only [List.append_assoc] at this
    exact List.append_cancel_left this
  obtain ⟨hlang, h1⟩ := sep_split '_' lang lang' _ _ hl hl' h0
  obtain ⟨hi, h2⟩ := sep_split '_' (natRepr i) (natRepr i') _ _
    (fun c hc => (natRepr_chars i c hc).1) (fun c hc => (natRepr_chars i' c hc).1) h1
  have hw : (".wav".toList : List Char) = '.' :: "wav".toList := rfl
  rw [hw] at h2
  obtain ⟨hv, -⟩ := sep_split '.' (natRepr v) (natRepr v') _ _
    (fun c hc => (natRepr_chars v c hc).2) (fun c hc => (natRepr_chars v' c hc).2) h2
  exact ⟨hlang, natRepr_inj hi, natRepr_inj hv⟩

/-- `_paths_for(lang, variants)`: the `(phrase, [variant paths])` list. -/
def _paths_for (lang : List Char) (phrases : List (List Char)) (variants : ℕ) :
    List (List Char × List (List Char)) :=
  phrases.enum.map (fun p => (p.2, (List.range variants).map (fun v => giggle_path lang p.1 v)))

/-- Boolean membership of a path in a path list. -/
def pathMem (q : List Char) : List (List Char) → Bool
  | [] => false
  | p :: t => if q = p then true else pathMem q t

/-- The per-path body of the `build_giggle_cache` loop: an existing file is
skipped, otherwise the path is synthesized and persisted when the synthesis
oracle succeeds (per-item failures are skipped). -/
def buildStep (synthOk : List Char → Bool) (fs : List Char → Bool) (path : List Char) :
    List Char → Bool :=
  if fs path then fs
  else if synthOk path then fun q => if q = path then true else fs q
  else fs

/-- `build_giggle_cache(lang, variants)` acting on the file-system state. -/
def build_giggle_cache (synthOk : List Char → Bool) (lang : List Char)
    (phrases : List (List Char)) (variants : ℕ) (fs : List Char → Bool) :
    List Char → Bool :=
  (_paths_for lang phrases variants).foldl
    (fun fs pv => pv.2.foldl (buildStep synthOk) fs) fs

/-- The flattened path list, as `play_random_giggle` gathers it
(`candidate_paths.extend(vpaths)`). -/
def gatherPaths (items : List (List Char × List (List Char))) : List (List Char) :=
  items.foldl (fun acc pv => acc ++ pv.2) []

theorem pathMem_append (q : List Char) (a b : List (List Char)) :
    pathMem q (a ++ b) = (pathMem q a || pathMem q b) := by
  induction a with
  | nil => simp [pathMem]
  | cons p t ih =>
    simp only [List.cons_append, pathMem]
    by_cases h : q = p
    · simp [h]
    · simp [h, ih]

theorem buildFold_eq (synthOk : List Char → Bool) :
    ∀ (paths : List (List Char)) (fs : List Char → Bool) (q : List Char),
      (paths.foldl (buildStep synthOk) fs) q = (fs q || (pathMem q paths && synthOk q)) := by
  intro paths
  induction paths with
  | nil => intro fs q; simp [pathMem]
  | cons p t ih =>
    intro fs q
    simp only [List.foldl_cons, pathMem]
    rw [ih]
    unfold buildStep
    by_cases h2 : q = p
    · subst h2
      by_cases h1 : fs q
      · rw [if_pos h1]; simp [h1]
      · rw [if_neg h1]
        by_cases h3 : synthOk q
        · rw [if_pos h3]; simp [h1, h3]
        · rw [if_neg h3]; simp [h1, h3]
    · by_cases h1 : fs p
      · rw [if_pos h1]; simp [h2]
      · rw [if_neg h1]
        by_cases h3 : synthOk p
        · rw [if_pos h3]; simp [h2]
        · rw [if_neg h3]; simp [h2]

theorem gather_cons (g : List Char × List (List Char))
    (t : List (List Char × List (List Char))) :
    gatherPaths (g :: t) = g.2 ++ gatherPaths t := by
  unfold gatherPaths
  simp only [List.foldl_cons, List.nil_append]
  suffices haux : ∀ (l : List (List Char × List (List Char))) (acc : List (List Char)),
      l.foldl (fun acc pv => acc ++ pv.2) acc = acc ++ l.foldl (fun acc pv => acc ++ pv.2) [] by
    rw [haux]
  intro l
  induction l with
  | nil => intro acc; simp
  | cons g' t' ih =>
    intro acc
    simp only [List.foldl_cons, List.nil_append]
    rw [ih, ih g'.2]
    simp [List.append_assoc]

theorem bool_or_and_aux (a b c d : Bool) :
    ((a || (b && d)) || (c && d)) = (a || ((b || c) && d)) := by
  cases a <;> cases b <;> cases c <;> cases d <;> rfl

theorem groupFold_eq (synthOk : List Char → Bool) :
    ∀ (groups : List (List Char × List (List Char))) (fs : List Char → Bool) (q : List Char),
      (groups.foldl (fun fs pv => pv.2.foldl (buildStep synthOk) fs) fs) q
        = (fs q || (pathMem q (gatherPaths groups) && synthOk q)) := by
  intro groups
  induction groups with
  | nil => intro fs q; simp [gatherPaths, pathMem]
  | cons g t ih =>
    intro fs q
    simp only [List.foldl_cons]
    rw [ih, buildFold_eq, gather_cons, pathMem_append]
    exact bool_or_and_aux _ _ _ _

theorem build_giggle_cache_eq (synthOk : List Char → Bool) (lang : List Char)
    (phrases : List (List Char)) (variants : ℕ) (fs : List Char → Bool) (q : List Char) :
    build_giggle_cache synthOk lang phrases variants fs q
      = (fs q || (pathMem q (gatherPaths (_paths_for lang phrases variants)) && synthOk q)) :=
  groupFold_eq synthOk (_paths_for lang phrases variants) fs q

/-- C6: the cache file name is a deterministic function of
`(language, phraseIndex, variantIndex)` which is collision-free (for
underscore-free language tags, as all of `en`, `hi`, `hinglish` are), and —
entries already on disk being skipped and synthesis success being a
deterministic per-path oracle — running `build` twice produces exactly the
same persisted set as running it once, with no duplicate keys. -/
theorem claim_C6_cache_idempotent :
    (∀ (lang lang' : List Char) (i v i' v' : ℕ),
        (∀ c ∈ lang, c ≠ '_') → (∀ c ∈ lang', c ≠ '_') →
        giggle_path lang i v = giggle_path lang' i' v' →
        lang = lang' ∧ i = i' ∧ v = v')
      ∧ ∀ (synthOk : List Char → Bool) (lang : List Char) (phrases : List (List Char))
          (variants : ℕ) (fs : List Char → Bool),
          build_giggle_cache synthOk lang phrases variants
              (build_giggle_cache synthOk lang phrases variants fs)
            = build_giggle_cache synthOk lang phrases variants fs := by
  constructor
  · exact giggle_path_inj
  · intro synthOk lang phrases variants fs
    funext q
    rw [build_giggle_cache_eq, build_giggle_cache_eq]
    cases fs q <;>
      cases pathMem q (gatherPaths (_paths_for lang phrases variants)) <;>
      cases synthOk q <;> rfl

theorem claim_C6_cache_idempotent_witness :
    ((∀ c ∈ ("hi".toList : List Char), c ≠ '_')
        ∧ giggle_path "hi".toList 1 2 = giggle_path "hi".toList 1 2)
      ∧ (1 : ℕ) = 1 ∧ (2 : ℕ) = 2 :=
  ⟨⟨by decide, rfl⟩,
   (claim_C6_cache_idempotent.1 "hi".toList "hi".toList 1 2 1 2
     (by decide) (by decide) rfl).2⟩

/-- The default giggle phrase list of `_load_giggle_phrases` (the
`personality_templates.json` file is absent from the repository, so the
`except` fallback is always taken): three phrases. -/
def defaultGigglePhrases : List (List Char) :=
  ["हाहा".toList, "हेहे".toList, "hehe".toList]

/-- Python tuple unpacking `a, b = l` of a list into exactly two names:
raises `ValueError` unless the list has exactly two elements. -/
def pyUnpack2 {α : Type} (l : List α) : Except String (α × α) :=
  match l with
  | [a, b] => Except.ok (a, b)
  | _ => Except.error "ValueError: unpack"

/-- `play_random_giggle(lang)` from `voice/giggle_cache.py`.  External
effects are injected: `synthOk` drives `build_giggle_cache`, `fallback` is
the decoded waveform of the last-resort live synthesis (`none` when that
synthesis fails — its `except` returns silently), `readData` decodes a
cached file (`none` when `sf.read`/playback raises — swallowed), and
`choice` drives `random.choice`.  The returned value is the waveform that
was played, if any. -/
def play_random_giggle (synthOk : List Char → Bool) (fallback : Option (List ℚ))
    (readData : List Char → Option (List ℚ)) (choice : ℕ)
    (lang : List Char) (phrases : List (List Char)) (fs : List Char → Bool) :
    Except String (Option (List ℚ)) := do
  let _pair ← pyUnpack2 (_paths_for lang phrases 3)
  let candidate_paths := gatherPaths (_paths_for lang phrases 3)
  let existing0 := candidate_paths.filter fs
  let existing := if existing0.isEmpty then
      candidate_paths.filter (build_giggle_cache synthOk lang phrases 3 fs)
    else existing0
  if existing.isEmpty then
    match fallback with
    | some dta => pure (some dta)
    | none => pure none
  else
    match readData (existing.getD (choice % existing.length) []) with
    | some dta => pure (some dta)
    | none => pure none

/-- C5 (code bug): with the repository's default three-phrase giggle list,
the tuple unpacking `phrases, paths = _paths_for(lang)` at the top of
`play_random_giggle` receives a 3-element list and raises
`ValueError: too many values to unpack` before any entry is gathered, any
build is invoked or any fallback runs — for every language, cache state,
synthesis oracle and random choice.  The claim's description (gather, build
once, re-gather, improvised fallback, never throws) is the documented
intent; line 70 of `giggle_cache.py` is the slip. -/
theorem claim_C5_unpack_valueerror (synthOk : List Char → Bool)
    (fallback : Option (List ℚ)) (readData : List Char → Option (List ℚ))
    (choice : ℕ) (lang : List Char) (fs : List Char → Bool) :
    play_random_giggle synthOk fallback readData choice lang defaultGigglePhrases fs
      = Except.error "ValueError: unpack" := rfl

/-!
## Public entry points `speak` and `play_giggle` (`voice/tts.py` 588-652)

Fallible collaborators (the transliteration table, `asyncio.run(speak_async)`
— whose own internal failures propagate out of it into `speak`'s handler —
the template file, the cached-giggle playback and the per-fragment
synthesis) are injected as `Except`-valued parameters; the entry points'
own `try/except` structure is embedded as written.  The result collects the
console lines printed. -/

/-- Python `try: body except Exception: handler`. -/
def pyTry {α : Type} (body : Except String α) (handler : String → Except String α) :
    Except String α :=
  match body with
  | Except.ok a => Except.ok a
  | Except.error e => handler e

/-- The `MJ -> (lang=…, emotion=…, effect=…): …` console line. -/
def speakEchoLine (lang emotion effect text : String) : String :=
  "MJ -> (lang=" ++ lang ++ ", emotion=" ++ emotion ++ ", effect="
    ++ effect ++ "): " ++ text

/-- The console-echo block of `speak` (its `try/except` prints the plain
line when transliteration fails). -/
def speakEchoBlock (lang emotion effect text : String)
    (translit : Except String String) : Except String (List String) :=
  pyTry
    (if lang = "hi" ∨ lang = "hinglish" then do
        let tr ← translit
        pure [speakEchoLine lang emotion effect text ++ " | transliteration: " ++ tr]
      else pure [speakEchoLine lang emotion effect text])
    (fun _ => Except.ok [speakEchoLine lang emotion effect text])

/-- The synthesis block of `speak`: on any failure print the error and — if
console echo was off — fall back to printing `MJ: <text>`. -/
def speakTtsBlock (echo : Bool) (text : String) (tts : Except String Unit) :
    Except String (List String) :=
  pyTry (do let _ ← tts; pure ([] : List String))
    (fun e => Except.ok (("TTS speak_async error: " ++ e)
      :: if echo then [] else ["MJ: " ++ text]))

/-- `speak(text, lang, emotion, effect)` from `voice/tts.py`. -/
def speak (echo : Bool) (lang emotion effect text : String)
    (translit : Except String String) (tts : Except String Unit) :
    Except String (List String) := do
  let pre ← if echo then speakEchoBlock lang emotion effect text translit
    else pure []
  let post ← speakTtsBlock echo text tts
  pure (pre ++ post)

/-- The `giggle_types` dictionary of `play_giggle` with its `.get` default
(string contents copied byte-for-byte from the source file). -/
def giggle_types_get (emotion : String) : List String :=
  match emotion with
  | "happy" => ["‡§π‡§æ‡§π‡§æ", "hehe", "haha", "üòä"]
  | "playful" => ["teehee", "hehe", "üòú", "giggle"]
  | "flirty" => ["mmm", "hehe", "üòò", "teehee"]
  | "excited" => ["wow", "haha", "yay", "üòÑ"]
  | "tender" => ["hehe", "sweet", "üòç"]
  | "surprised" => ["oh my", "wow", "üò≤", "haha"]
  | "sarcastic" => ["sure", "right", "hehe"]
  | "confused" => ["umm", "huh", "üòï"]
  | _ => ["‡§π‡§æ‡§π‡§æ", "hehe", "haha", "üòä"]

/-- `random.sample(pop, k)`: `ValueError` when `k` exceeds the population;
the selection itself is irrelevant to every claim and is modelled as the
first `k` elements. -/
def pySample (pop : List String) (k : ℕ) : Except String (List String) :=
  if k ≤ pop.length then Except.ok (pop.take k) else Except.error "ValueError: sample"

/-- `play_giggle(lang, emotion)` from `voice/tts.py`.  `templates` is the
`personality_templates.json` load (absent file → error, absorbed by the
`except: pass`); `draw` drives `random.randint`; `cachePlay` is the
`play_random_giggle` call (its `ValueError` — see C5 — is absorbed by the
surrounding `try/except`); `speakP` is the per-fragment
`asyncio.run(speak_async(...))`, whose failures the final loop ignores. -/
def play_giggle (emotion : String) (templates : Except String (List String))
    (draw : ℕ) (cachePlay : Except String Unit)
    (speakP : String → Except String Unit) : Except String Unit := do
  let phrases := giggle_types_get emotion ++ (match templates with
    | Except.ok l => l
    | Except.error _ => [])
  let num := if emotion = "excited" ∨ emotion = "happy" then 2 + draw % 3
    else 1 + draw % 2
  let seq ← pySample phrases (min num phrases.length)
  match cachePlay with
  | Except.ok _ => pure ()
  | Except.error _ =>
    let _ := seq.map (fun p => pyTry (speakP p) (fun _ => Except.ok ()))
    pure ()

/-- C4: `speak` and `play_giggle` never surface an exception to the caller,
whatever their fallible collaborators do, and when synthesis fails with
console echo off, `speak` degrades to printing the reply text
(`MJ: <text>`) after the error line. -/
theorem claim_C4_never_raises (echo : Bool) (lang emotion effect text : String)
    (translit : Except String String) (tts : Except String Unit)
    (gEmotion : String) (templates : Except String (List String)) (draw : ℕ)
    (cachePlay : Except String Unit) (speakP : String → Except String Unit) :
    (speak echo lang emotion effect text translit tts).isOk = true
      ∧ (play_giggle gEmotion templates draw cachePlay speakP).isOk = true
      ∧ ∀ e, tts = Except.error e → echo = false →
          speak echo lang emotion effect text translit tts
            = Except.ok ["TTS speak_async error: " ++ e, "MJ: " ++ text] := by
  have hecho : ∃ l, speakEchoBlock lang emotion effect text translit = Except.ok l := by
    unfold speakEchoBlock pyTry
    split
    · exact ⟨_, rfl⟩
    · exact ⟨_, rfl⟩
  have htts : ∃ l, speakTtsBlock echo text tts = Except.ok l := by
    unfold speakTtsBlock pyTry
    split
    · exact ⟨_, rfl⟩
    · exact ⟨_, rfl⟩
  refine ⟨?_, ?_, ?_⟩
  · obtain ⟨l1, h1⟩ := hecho
    obtain ⟨l2, h2⟩ := htts
    unfold speak
    cases echo <;> simp [h1, h2, Except.isOk, Except.toBool, Bind.bind, Except.bind, Pure.pure, Except.pure]
  · simp only [play_giggle]
    unfold pySample
    rw [if_pos (Nat.min_le_right _ _)]
    cases cachePlay <;> simp [Except.isOk, Except.toBool, Bind.bind, Except.bind, Pure.pure, Except.pure]
  · intro e hte hecho'
    subst hecho'
    subst hte
    rfl

theorem claim_C4_never_raises_witness :
    ((Except.error "boom" : Except String Unit) = Except.error "boom" ∧ false = false)
      ∧ speak false "hi" "happy" "none" "hello" (Except.ok "tr") (Except.error "boom")
          = Except.ok ["TTS speak_async error: " ++ "boom", "MJ: " ++ "hello"] :=
  ⟨⟨rfl, rfl⟩,
   (claim_C4_never_raises false "hi" "happy" "none" "hello" (Except.ok "tr")
     (Except.error "boom") "happy" (Except.ok []) 0 (Except.ok ())
     (fun _ => Except.ok ())).2.2 "boom" rfl rfl⟩
